import Mathlib

/-!
Verification of the `signature_gen` tool of the `noir_rsa` repository
(`src/signature_gen/src/main.rs`).

The tool hashes a message with SHA-256, signs it with a freshly generated
1025-bit RSA key, and prints the signature, the public modulus and the
Barrett reduction parameter of the modulus as sequences of 120-bit limbs,
in either a plain-text layout or a TOML layout.

The numeric core (`split_into_120_bit_limbs`, `compute_barrett_reduction_parameter`,
`bn_limbs`) lives in the external crate `noir_bignum_paramgen`, whose source is
not part of this repository; those functions are modelled here from the
specification's contracts.  Arbitrary-precision unsigned integers (`BigUint`)
are embedded as `Nat`.
-/

namespace SigGen

/-- Error taxonomy of the numeric core, from the specification:
`OutOfRange` for a value exceeding its declared bit width during limb
splitting, `DivisionByZero` for a zero modulus passed to the Barrett
parameter computation. -/
inductive PipelineError where
  | OutOfRange
  | DivisionByZero
deriving DecidableEq, Repr

/-- Number of 120-bit limbs for a declared bit width `w`:
`ceil(w / 120)`, written with natural-number arithmetic as `(w + 119) / 120`. -/
def limbCount (w : Nat) : Nat := (w + 119) / 120

/-- Little-endian 120-bit limb decomposition: `k` limbs, limb `i` holding
bits `[120*i, 120*i + 120)` of `v`. -/
def limbsAux : Nat → Nat → List Nat
  | 0, _ => []
  | k + 1, v => v % 2 ^ 120 :: limbsAux k (v / 2 ^ 120)

/-- Modelled from the spec: `split_into_120_bit_limbs` of the external
`noir_bignum_paramgen` crate (its source is not under `src/`).
Contract (§4.1): compute `limb_count = ceil(target_bit_width / 120)`; for
`i` in `0..limb_count` extract bits `[120*i, 120*i+120)` of `value`,
least-significant limb first; fail with `OutOfRange` if
`value >= 2^target_bit_width`, never silently truncating. -/
def split_into_120_bit_limbs (value : Nat) (target_bit_width : Nat) :
    Except PipelineError (List Nat) :=
  if value < 2 ^ target_bit_width then
    .ok (limbsAux (limbCount target_bit_width) value)
  else
    .error .OutOfRange

/-- The shared target bit width of this tool (`let bits: usize = 1025;`,
main.rs line 48): one bit beyond the nominal 1024-bit RSA modulus. -/
def bits : Nat := 1025

/-- Modelled from the spec: `compute_barrett_reduction_parameter` of the
external `noir_bignum_paramgen` crate (its source is not under `src/`).
Contract (§3, §4.2): the parameter is `floor(2^(2*target_bit_width) / modulus)`
computed by exact floor division, with the target bit width the protocol
constant 1025; fails with `DivisionByZero` on a zero modulus. -/
def compute_barrett_reduction_parameter (modulus : Nat) :
    Except PipelineError Nat :=
  if modulus = 0 then .error .DivisionByZero
  else .ok (2 ^ (2 * bits) / modulus)

/-- Reconstruction of an integer from a little-endian 120-bit limb sequence:
`Σ limb[i] * 2^(120*i)`, written recursively. -/
def recombine : List Nat → Nat
  | [] => 0
  | l :: ls => l + 2 ^ 120 * recombine ls

/-! ### Basic facts about the limb decomposition -/

theorem limbsAux_length (k v : Nat) : (limbsAux k v).length = k := by
  induction k generalizing v with
  | zero => rfl
  | succ k ih => simp [limbsAux, ih]

theorem limbsAux_lt (k v : Nat) : ∀ x ∈ limbsAux k v, x < 2 ^ 120 := by
  induction k generalizing v with
  | zero => simp [limbsAux]
  | succ k ih =>
    intro x hx
    simp only [limbsAux, List.mem_cons] at hx
    rcases hx with h | h
    · exact h ▸ Nat.mod_lt _ (by positivity)
    · exact ih _ x h

theorem recombine_limbsAux (k v : Nat) :
    recombine (limbsAux k v) = v % 2 ^ (120 * k) := by
  induction k generalizing v with
  | zero => simp [limbsAux, recombine, Nat.mod_one]
  | succ k ih =>
    have hmul : (2 : Nat) ^ (120 * (k + 1)) = 2 ^ 120 * 2 ^ (120 * k) := by
      rw [← pow_add]; ring_nf
    have h1 : v % (2 ^ 120 * 2 ^ (120 * k)) % 2 ^ 120 = v % 2 ^ 120 :=
      Nat.mod_mod_of_dvd v ⟨2 ^ (120 * k), rfl⟩
    have h2 : v % (2 ^ 120 * 2 ^ (120 * k)) / 2 ^ 120 = v / 2 ^ 120 % 2 ^ (120 * k) :=
      Nat.mod_mul_right_div_self v (2 ^ 120) (2 ^ (120 * k))
    have h3 := Nat.mod_add_div (v % (2 ^ 120 * 2 ^ (120 * k))) (2 ^ 120)
    calc recombine (limbsAux (k + 1) v)
        = v % 2 ^ 120 + 2 ^ 120 * ((v / 2 ^ 120) % 2 ^ (120 * k)) := by
          simp [limbsAux, recombine, ih]
      _ = v % 2 ^ (120 * (k + 1)) := by rw [hmul, ← h1, ← h2, h3]

/-- The declared width never exceeds the capacity of `ceil(w/120)` limbs. -/
theorem width_le_capacity (w : Nat) : w ≤ 120 * limbCount w := by
  have h := Nat.div_add_mod (w + 119) 120
  have h2 : (w + 119) % 120 < 120 := Nat.mod_lt _ (by norm_num)
  unfold limbCount
  omega

/-! ### Claims about the limb splitter -/

/-- Claim C1: For every non-negative integer `v` and positive bit width `w`
with `v < 2^w`, the limb sequence returned by `split(v, w)` reconstructs,
via `Σ limb[i] * 2^(120*i)`, to exactly `v`. -/
theorem split_roundtrip (v w : Nat) (hw : 0 < w) (hv : v < 2 ^ w) :
    ∃ limbs, split_into_120_bit_limbs v w = .ok limbs ∧ recombine limbs = v := by
  refine ⟨limbsAux (limbCount w) v, ?_, ?_⟩
  · simp [split_into_120_bit_limbs, hv]
  · rw [recombine_limbsAux]
    have hcap : v < 2 ^ (120 * limbCount w) :=
      lt_of_lt_of_le hv (Nat.pow_le_pow_right (by norm_num) (width_le_capacity w))
    exact Nat.mod_eq_of_lt hcap

/-- Witness for C1: the round-trip at the concrete input `v = 5`, `w = 1025`. -/
theorem split_roundtrip_witness :
    ∃ limbs, split_into_120_bit_limbs 5 1025 = .ok limbs ∧ recombine limbs = 5 :=
  split_roundtrip 5 1025 (by norm_num) (by norm_num)

/-- Claim C3: For every valid input pair `(v, w)` with `v < 2^w`, the limb
sequence returned by `split(v, w)` has length exactly `ceil(w / 120)`
(written `(w + 119) / 120`), independently of the magnitude of `v`;
in particular `w = 1025` always yields 9 limbs. -/
theorem split_length (v w : Nat) (hv : v < 2 ^ w) :
    ∃ limbs, split_into_120_bit_limbs v w = .ok limbs ∧
      limbs.length = (w + 119) / 120 ∧ (w = 1025 → limbs.length = 9) := by
  refine ⟨limbsAux (limbCount w) v, ?_, ?_, ?_⟩
  · simp [split_into_120_bit_limbs, hv]
  · simp [limbsAux_length, limbCount]
  · intro hw
    subst hw
    simp [limbsAux_length, limbCount]

/-- Witness for C3: at `v = 3`, `w = 1025` the split succeeds with 9 limbs. -/
theorem split_length_witness :
    ∃ limbs, split_into_120_bit_limbs 3 1025 = .ok limbs ∧
      limbs.length = (1025 + 119) / 120 ∧ (1025 = 1025 → limbs.length = 9) :=
  split_length 3 1025 (by norm_num)

/-- Claim C4: Every limb in every sequence produced by `split` satisfies
`0 ≤ limb < 2^120`, for all valid inputs `(v, w)` with `v < 2^w`
(the lower bound is automatic for `Nat`). -/
theorem split_limbs_bounded (v w : Nat) (hv : v < 2 ^ w) :
    ∃ limbs, split_into_120_bit_limbs v w = .ok limbs ∧
      ∀ x ∈ limbs, x < 2 ^ 120 := by
  refine ⟨limbsAux (limbCount w) v, ?_, limbsAux_lt _ v⟩
  simp [split_into_120_bit_limbs, hv]

/-- Witness for C4: the limb bound at the concrete input `v = 2^1024`, `w = 1025`. -/
theorem split_limbs_bounded_witness :
    ∃ limbs, split_into_120_bit_limbs (2 ^ 1024) 1025 = .ok limbs ∧
      ∀ x ∈ limbs, x < 2 ^ 120 :=
  split_limbs_bounded (2 ^ 1024) 1025 (by norm_num)

/-- Claim C5: `split(value, w)` fails with `OutOfRange` whenever
`value ≥ 2^w`, producing no limb output (the error carries no data):
it never silently truncates or wraps. -/
theorem split_out_of_range (v w : Nat) (hv : 2 ^ w ≤ v) :
    split_into_120_bit_limbs v w = .error .OutOfRange := by
  simp [split_into_120_bit_limbs, Nat.not_lt.mpr hv]

/-- Witness for C5: `value = 2^w` at `w = 10` is rejected with `OutOfRange`. -/
theorem split_out_of_range_witness :
    split_into_120_bit_limbs (2 ^ 10) 10 = .error .OutOfRange :=
  split_out_of_range (2 ^ 10) 10 (Nat.le_refl _)

/-! ### Claims about the Barrett parameter -/

/-- Claim C2: For every positive modulus `m` representable within the shared
target bit width `w = 1025`, the Barrett parameter computation returns
exactly `floor(2^(2*1025) / m)`: the unique `q` with
`q*m ≤ 2^(2*1025) < (q+1)*m`. -/
theorem barrett_parameter_correct (m : Nat) (hm : 0 < m) (hw : m < 2 ^ 1025) :
    ∃ q, compute_barrett_reduction_parameter m = .ok q ∧
      q = 2 ^ (2 * 1025) / m ∧
      q * m ≤ 2 ^ (2 * 1025) ∧ 2 ^ (2 * 1025) < (q + 1) * m := by
  refine ⟨2 ^ (2 * bits) / m, ?_, rfl, ?_, ?_⟩
  · simp [compute_barrett_reduction_parameter, Nat.pos_iff_ne_zero.mp hm]
  · exact Nat.div_mul_le_self _ m
  · have h := Nat.div_add_mod (2 ^ (2 * 1025)) m
    have h2 : 2 ^ (2 * 1025) % m < m := Nat.mod_lt _ hm
    have hb : (bits : Nat) = 1025 := rfl
    rw [hb]
    nlinarith [h, h2]

/-- Witness for C2: the Barrett parameter characterisation at `m = 3`. -/
theorem barrett_parameter_correct_witness :
    ∃ q, compute_barrett_reduction_parameter 3 = .ok q ∧
      q = 2 ^ (2 * 1025) / 3 ∧
      q * 3 ≤ 2 ^ (2 * 1025) ∧ 2 ^ (2 * 1025) < (q + 1) * 3 :=
  barrett_parameter_correct 3 (by norm_num)
    (calc (3 : Nat) < 2 ^ 2 := by norm_num
      _ ≤ 2 ^ 1025 := Nat.pow_le_pow_right (by norm_num) (by norm_num))

/-- Claim C6: The Barrett parameter computation fails with `DivisionByZero`
on the zero modulus (producing no output value), and succeeds — returns
`.ok` of the exact quotient — for every positive modulus. -/
theorem barrett_zero_and_positive :
    compute_barrett_reduction_parameter 0 = .error .DivisionByZero ∧
      ∀ m, 0 < m →
        compute_barrett_reduction_parameter m = .ok (2 ^ (2 * 1025) / m) := by
  constructor
  · rfl
  · intro m hm
    simp [compute_barrett_reduction_parameter, Nat.pos_iff_ne_zero.mp hm]
    rfl

/-- Witness for C6: the zero modulus fails, the concrete modulus `7` succeeds. -/
theorem barrett_zero_and_positive_witness :
    compute_barrett_reduction_parameter 0 = .error .DivisionByZero ∧
      compute_barrett_reduction_parameter 7 = .ok (2 ^ (2 * 1025) / 7) :=
  ⟨barrett_zero_and_positive.1, barrett_zero_and_positive.2 7 (by norm_num)⟩

/-! ### SHA-256

Modelled from the spec: the hash stage (§4.3 stage 1) delegates to the
standard SHA-256 function of the external `sha2` library (not under `src/`).
The full FIPS 180-4 algorithm is embedded below over byte lists (`List Nat`,
each entry a byte value), so that the digest is an executable function. -/

/-- Truncation to a 32-bit word. -/
def w32 (x : Nat) : Nat := x % 4294967296

/-- Right rotation of a 32-bit word by `k` positions. -/
def rotr (k x : Nat) : Nat := w32 (x >>> k ||| x <<< (32 - k))

/-- Bitwise complement of a 32-bit word. -/
def wnot (x : Nat) : Nat := x ^^^ 4294967295

def bigSigma0 (x : Nat) : Nat := rotr 2 x ^^^ rotr 13 x ^^^ rotr 22 x
def bigSigma1 (x : Nat) : Nat := rotr 6 x ^^^ rotr 11 x ^^^ rotr 25 x
def smallSigma0 (x : Nat) : Nat := rotr 7 x ^^^ rotr 18 x ^^^ (x >>> 3)
def smallSigma1 (x : Nat) : Nat := rotr 17 x ^^^ rotr 19 x ^^^ (x >>> 10)
def chFn (e f g : Nat) : Nat := (e &&& f) ^^^ (wnot e &&& g)
def majFn (a b c : Nat) : Nat := (a &&& b) ^^^ (a &&& c) ^^^ (b &&& c)

/-- The 64 SHA-256 round constants (FIPS 180-4 §4.2.2, written in
decimal). -/
def shaK : List Nat :=
  [1116352408, 1899447441, 3049323471, 3921009573, 961987163, 1508970993,
   2453635748, 2870763221, 3624381080, 310598401, 607225278, 1426881987,
   1925078388, 2162078206, 2614888103, 3248222580, 3835390401, 4022224774,
   264347078, 604807628, 770255983, 1249150122, 1555081692, 1996064986,
   2554220882, 2821834349, 2952996808, 3210313671, 3336571891, 3584528711,
   113926993, 338241895, 666307205, 773529912, 1294757372, 1396182291,
   1695183700, 1986661051, 2177026350, 2456956037, 2730485921, 2820302411,
   3259730800, 3345764771, 3516065817, 3600352804, 4094571909, 275423344,
   430227734, 506948616, 659060556, 883997877, 958139571, 1322822218,
   1537002063, 1747873779, 1955562222, 2024104815, 2227730452, 2361852424,
   2428436474, 2756734187, 3204031479, 3329325298]

/-- The eight working variables / hash words. -/
structure Hash8 where
  a : Nat
  b : Nat
  c : Nat
  d : Nat
  e : Nat
  f : Nat
  g : Nat
  h : Nat

/-- Initial SHA-256 hash value (FIPS 180-4 §5.3.3, written in decimal). -/
def shaH0 : Hash8 :=
  ⟨1779033703, 3144134277, 1013904242, 2773480762,
   1359893119, 2600822924, 528734635, 1541459225⟩

/-- Decompose the message-length field into eight big-endian bytes. -/
def lenBytes (n : Nat) : List Nat :=
  [n >>> 56 % 256, n >>> 48 % 256, n >>> 40 % 256, n >>> 32 % 256,
   n >>> 24 % 256, n >>> 16 % 256, n >>> 8 % 256, n % 256]

/-- SHA-256 padding: a `0x80` byte, zeros up to 56 mod 64, then the bit
length as eight big-endian bytes. -/
def padMessage (msg : List Nat) : List Nat :=
  let L := msg.length
  let z := (64 + 56 - (L + 1) % 64) % 64
  msg ++ 0x80 :: List.replicate z 0 ++ lenBytes ((8 * L) % 2 ^ 64)

/-- Group a byte list into big-endian 32-bit words (four bytes per word). -/
def bytesToWords : List Nat → List Nat
  | b0 :: b1 :: b2 :: b3 :: rest =>
      (b0 * 16777216 + b1 * 65536 + b2 * 256 + b3) :: bytesToWords rest
  | _ => []

/-- Extend the schedule: the accumulator holds the words produced so far,
newest first; run `k` more extension steps. -/
def extendSched : Nat → List Nat → List Nat
  | 0, acc => acc
  | k + 1, acc =>
      extendSched k
        (w32 (smallSigma1 (acc.getD 1 0) + acc.getD 6 0 +
              smallSigma0 (acc.getD 14 0) + acc.getD 15 0) :: acc)

/-- The 64-entry message schedule of one chunk (given its 16 words). -/
def schedule (ws : List Nat) : List Nat :=
  (extendSched 48 ws.reverse).reverse

/-- One compression round, consuming `K[t] + W[t]`. -/
def shaRound (s : Hash8) (kw : Nat) : Hash8 :=
  let t1 := w32 (s.h + bigSigma1 s.e + chFn s.e s.f s.g + kw)
  let t2 := w32 (bigSigma0 s.a + majFn s.a s.b s.c)
  ⟨w32 (t1 + t2), s.a, s.b, s.c, w32 (s.d + t1), s.e, s.f, s.g⟩

/-- Process one 64-byte chunk: 64 rounds, then add the working variables
back into the running hash value. -/
def processChunk (H : Hash8) (chunk : List Nat) : Hash8 :=
  let ws := schedule (bytesToWords chunk)
  let s := (shaK.zip ws).foldl (fun s kw => shaRound s (w32 (kw.1 + kw.2))) H
  ⟨w32 (H.a + s.a), w32 (H.b + s.b), w32 (H.c + s.c), w32 (H.d + s.d),
   w32 (H.e + s.e), w32 (H.f + s.f), w32 (H.g + s.g), w32 (H.h + s.h)⟩

/-- Take `k` consecutive 64-byte chunks from the front of a byte list. -/
def chunks64Aux : Nat → List Nat → List (List Nat)
  | 0, _ => []
  | k + 1, l => l.take 64 :: chunks64Aux k (l.drop 64)

/-- Split the padded message into its 64-byte chunks. -/
def chunks64 (l : List Nat) : List (List Nat) :=
  chunks64Aux ((l.length + 63) / 64) l

/-- Serialize one 32-bit word as four big-endian bytes. -/
def wordBytes (x : Nat) : List Nat :=
  [x >>> 24 % 256, x >>> 16 % 256, x >>> 8 % 256, x % 256]

/-- Serialize the final hash value as 32 bytes. -/
def digestBytes (s : Hash8) : List Nat :=
  wordBytes s.a ++ wordBytes s.b ++ wordBytes s.c ++ wordBytes s.d ++
  wordBytes s.e ++ wordBytes s.f ++ wordBytes s.g ++ wordBytes s.h

/-- Modelled from the spec: SHA-256 over a byte list (the `sha2` library
used at main.rs lines 37–39 is not under `src/`). -/
def sha256 (msg : List Nat) : List Nat :=
  digestBytes ((chunks64 (padMessage msg)).foldl processChunk shaH0)

/-- The digest always consists of exactly 32 bytes. -/
theorem digestBytes_length (s : Hash8) : (digestBytes s).length = 32 := rfl

/-- SHA-256 of the empty message (the FIPS 180-4 reference value). -/
theorem sha256_empty :
    sha256 [] =
      [0xe3, 0xb0, 0xc4, 0x42, 0x98, 0xfc, 0x1c, 0x14, 0x9a, 0xfb, 0xf4, 0xc8,
       0x99, 0x6f, 0xb9, 0x24, 0x27, 0xae, 0x41, 0xe4, 0x64, 0x9b, 0x93, 0x4c,
       0xa4, 0x95, 0x99, 0x1b, 0x78, 0x52, 0xb8, 0x55] := by
  decide

/-- SHA-256 of the three-byte message `"abc"` (the FIPS 180-4 reference value). -/
theorem sha256_abc :
    sha256 [0x61, 0x62, 0x63] =
      [0xba, 0x78, 0x16, 0xbf, 0x8f, 0x01, 0xcf, 0xea, 0x41, 0x41, 0x40, 0xde,
       0x5d, 0xae, 0x22, 0x23, 0xb0, 0x03, 0x61, 0xa3, 0x96, 0x17, 0x7a, 0x9c,
       0xb4, 0x10, 0xff, 0x61, 0xf2, 0x00, 0x15, 0xad] := by
  decide

/-- Claim C8: The hash stage is a deterministic pure function of the message
bytes: hashing the same message twice yields byte-identical digests, and
the digest always has the fixed length of 32 bytes. -/
theorem hash_deterministic (msg : List Nat) :
    sha256 msg = sha256 msg ∧ (sha256 msg).length = 32 :=
  ⟨rfl, digestBytes_length _⟩

/-! ### Numeral rendering and parsing

`format_limbs_as_hex` and `format_limbs_as_toml_value` (main.rs lines
21–34) print each limb with Rust's `format!("0x{:x}", a)`: lowercase
hexadecimal, no leading zeros, a single `0` for zero.  The hash bytes are
printed with `b.to_string()`: decimal.  Both numeral writers and their
exact parsers are embedded here so that the format-equivalence claim can
be stated as a decode-level statement. -/

/-- The ten decimal digit characters, indexed by digit value. -/
def decDigitTable : List Char :=
  ['0', '1', '2', '3', '4', '5', '6', '7', '8', '9']

/-- The sixteen digit characters of Rust's lowercase `{:x}` rendering (the
first ten also serve decimal display), indexed by digit value. -/
def digitTable : List Char :=
  decDigitTable ++ ['a', 'b', 'c', 'd', 'e', 'f']

/-- The digit character of value `d`. -/
def digitChar (d : Nat) : Char := digitTable.getD d '*'

/-- Numeric value of a digit character: its index in the digit table. -/
def digitVal (c : Char) : Option Nat := digitTable.indexOf? c

/-- Base-`b` digits of `n`, least significant first, with explicit fuel
(used with fuel `n`, which always suffices). -/
def natDigitsRev (b : Nat) : Nat → Nat → List Nat
  | 0, n => [n]
  | fuel + 1, n => if n < b then [n] else n % b :: natDigitsRev b fuel (n / b)

/-- Most-significant-first digit characters of `n` in base `b`. -/
def natToChars (b n : Nat) : List Char :=
  ((natDigitsRev b n n).map digitChar).reverse

/-- Rust's `format!("0x{:x}", a)`: the `0x` prefix followed by the
lowercase hexadecimal digits of `a`. -/
def hexToString (n : Nat) : String := String.mk ('0' :: 'x' :: natToChars 16 n)

/-- Rust's `b.to_string()`: the decimal digits of `b`. -/
def decToString (n : Nat) : String := String.mk (natToChars 10 n)

/-- Parse most-significant-first base-`b` digit characters, with
accumulator `a`; fails on any non-digit or out-of-base digit. -/
def parseDigits (b : Nat) : List Char → Nat → Option Nat
  | [], a => some a
  | c :: cs, a =>
    match digitVal c with
    | some d => if d < b then parseDigits b cs (b * a + d) else none
    | none => none

/-- Decode a decimal numeral string. -/
def decodeDec (s : String) : Option Nat :=
  if s.data = [] then none else parseDigits 10 s.data 0

/-- Decode a `0x`-prefixed lowercase hexadecimal numeral string. -/
def decodeHexLimb (s : String) : Option Nat :=
  match s.data with
  | '0' :: 'x' :: rest => if rest = [] then none else parseDigits 16 rest 0
  | _ => none

theorem digitVal_digitChar (d : Nat) (hd : d < 16) :
    digitVal (digitChar d) = some d := by
  interval_cases d <;> rfl

theorem parseDigits_append (b : Nat) (l1 l2 : List Char) (a : Nat) :
    parseDigits b (l1 ++ l2) a =
      (parseDigits b l1 a).bind (fun a2 => parseDigits b l2 a2) := by
  induction l1 generalizing a with
  | nil => rfl
  | cons c l1 ih =>
    simp only [List.cons_append, parseDigits]
    cases digitVal c with
    | none => rfl
    | some d =>
      by_cases hd : d < b
      · simp only [hd, if_true]; exact ih _
      · simp [hd]

theorem natDigitsRev_ne_nil (b fuel n : Nat) : natDigitsRev b fuel n ≠ [] := by
  cases fuel with
  | zero => simp [natDigitsRev]
  | succ fuel =>
    simp only [natDigitsRev]
    split <;> simp

/-- Parsing the rendered digits of `n` (most significant first) on top of
accumulator `a` yields `a * b ^ (number of digits) + n`. -/
theorem parseDigits_digits (b : Nat) (hb2 : 2 ≤ b) (hb16 : b ≤ 16) :
    ∀ fuel n a, n ≤ fuel →
      parseDigits b ((natDigitsRev b fuel n).map digitChar).reverse a =
        some (a * b ^ (natDigitsRev b fuel n).length + n) := by
  intro fuel
  induction fuel with
  | zero =>
    intro n a hn
    have hn0 : n = 0 := Nat.le_zero.mp hn
    subst hn0
    simp only [natDigitsRev, List.map, List.reverse_singleton, parseDigits,
      digitVal_digitChar 0 (by omega), List.length_singleton, pow_one]
    rw [if_pos (by omega : 0 < b), Nat.mul_comm b a]
  | succ fuel ih =>
    intro n a hn
    simp only [natDigitsRev]
    by_cases hlt : n < b
    · simp only [hlt, if_true, List.map, List.reverse_singleton, parseDigits,
        digitVal_digitChar n (Nat.lt_of_lt_of_le hlt hb16), hlt, if_true,
        List.length_singleton, pow_one]
      rw [Nat.mul_comm b a]
    · have hb0 : 0 < b := by omega
      have hnb : n / b < n := Nat.div_lt_self (by omega) hb2
      have hfuel : n / b ≤ fuel := by omega
      simp only [hlt, if_false, List.map, List.reverse_cons, parseDigits_append]
      rw [ih (n / b) a hfuel]
      have hmod16 : n % b < 16 := Nat.lt_of_lt_of_le (Nat.mod_lt _ hb0) hb16
      simp only [Option.bind, parseDigits, digitVal_digitChar _ hmod16,
        Nat.mod_lt _ hb0, if_true, List.length_cons, pow_succ]
      congr 1
      have := Nat.div_add_mod n b
      ring_nf
      omega

/-- Round-trip of the hexadecimal limb rendering. -/
theorem decodeHexLimb_hexToString (n : Nat) : decodeHexLimb (hexToString n) = some n := by
  have hne : natToChars 16 n ≠ [] := by
    simp [natToChars, natDigitsRev_ne_nil]
  simp only [decodeHexLimb, hexToString]
  rw [if_neg hne]
  have := parseDigits_digits 16 (by omega) (by omega) n n 0 (Nat.le_refl n)
  simpa [natToChars] using this

/-- Round-trip of the decimal byte rendering. -/
theorem decodeDec_decToString (n : Nat) : decodeDec (decToString n) = some n := by
  have hne : natToChars 10 n ≠ [] := by
    simp [natToChars, natDigitsRev_ne_nil]
  simp only [decodeDec, decToString]
  rw [if_neg hne]
  have := parseDigits_digits 10 (by omega) (by omega) n n 0 (Nat.le_refl n)
  simpa [natToChars] using this

/-! ### The two output layouts (main.rs lines 21–34, 72–98) -/

/-- The fragment of `toml::Value` used by the tool: strings and arrays. -/
inductive TomlValue where
  | str : String → TomlValue
  | arr : List TomlValue → TomlValue

/-- Embedding of format_limbs_as_hex (main.rs lines 21–27): each limb printed as
`0x{:x}`.  The `join(", ")` of the limb strings is kept as the list of
per-limb strings (the separator is surface output syntax). -/
def format_limbs_as_hex (limbs : List Nat) : List String :=
  limbs.map hexToString

/-- Embedding of format_limbs_as_toml_value (main.rs lines 29–34): each limb as a
TOML string `Value::String(format!("0x{:x}", a))`. -/
def format_limbs_as_toml_value (limbs : List Nat) : List TomlValue :=
  limbs.map (fun a => TomlValue.str (hexToString a))

/-- Embedding of hashed_as_bytes (main.rs lines 41–45): the digest bytes printed in
decimal (the `join(", ")` kept as the list of per-byte strings).  This one
string is used verbatim by both output layouts. -/
def hashed_as_bytes (hashBytes : List Nat) : List String :=
  hashBytes.map decToString

/-- Modelled from the spec: `bn_limbs` of the external
`noir_bignum_paramgen` crate (not under `src/`), used for the plain
layout's signature line (main.rs line 64): it renders the value's 120-bit
limb decomposition at the given width as the hex limb array (§4.4:
"signature as a labeled fixed-width numeric array"). -/
def bn_limbs (v w : Nat) : List String :=
  format_limbs_as_hex (limbsAux (limbCount w) v)

/-- The numeric fields of the plain (non-TOML) layout
(main.rs lines 87–98). -/
structure PlainDoc where
  hash_field : List String
  signature_field : List String
  bn_field : List (List String)

/-- The numeric fields of the TOML layout (main.rs lines 72–86). -/
structure TomlDoc where
  hash_field : List String
  signature_limbs : List TomlValue
  bn : TomlValue

/-- The plain branch of `generate_2048_bit_signature_parameters`
(main.rs lines 87–98): decimal hash bytes, the signature via `bn_limbs`
at width 1025, and the two hex limb arrays for modulus and Barrett
parameter. -/
def render_plain (hashBytes : List Nat) (sig_uint : Nat)
    (modulus_limbs redc_param : List Nat) : PlainDoc :=
  { hash_field := hashed_as_bytes hashBytes
    signature_field := bn_limbs sig_uint 1025
    bn_field := [format_limbs_as_hex modulus_limbs, format_limbs_as_hex redc_param] }

/-- The TOML branch of `generate_2048_bit_signature_parameters`
(main.rs lines 72–86): the same hash string, the signature split at width
1025 and rendered as TOML strings, and the nested `bn` array of the
modulus and Barrett-parameter limb arrays. -/
def render_toml (hashBytes : List Nat) (sig_uint : Nat)
    (modulus_limbs redc_param : List Nat) : Except PipelineError TomlDoc := do
  let sig_limbs ← split_into_120_bit_limbs sig_uint 1025
  pure { hash_field := hashed_as_bytes hashBytes
         signature_limbs := format_limbs_as_toml_value sig_limbs
         bn := TomlValue.arr [TomlValue.arr (format_limbs_as_toml_value modulus_limbs),
                              TomlValue.arr (format_limbs_as_toml_value redc_param)] }

/-- Decode a list elementwise, failing if any element fails. -/
def decodeList {α : Type} (f : α → Option Nat) : List α → Option (List Nat)
  | [] => some []
  | x :: xs =>
    match f x, decodeList f xs with
    | some n, some ns => some (n :: ns)
    | _, _ => none

/-- The numbers encoded by an output document: hash bytes, signature
limbs, modulus limbs, Barrett-parameter limbs. -/
structure DecodedBundle where
  hash : List Nat
  signature : List Nat
  modulus : List Nat
  redc : List Nat

/-- Decode the numbers of a plain-layout document. -/
def decode_plain (d : PlainDoc) : Option DecodedBundle :=
  match decodeList decodeDec d.hash_field,
        decodeList decodeHexLimb d.signature_field, d.bn_field with
  | some h, some s, [ms, rs] =>
    match decodeList decodeHexLimb ms, decodeList decodeHexLimb rs with
    | some m, some r => some ⟨h, s, m, r⟩
    | _, _ => none
  | _, _, _ => none

/-- Decode a TOML hex-string value. -/
def decodeTomlStr : TomlValue → Option Nat
  | .str s => decodeHexLimb s
  | _ => none

/-- Decode the numbers of a TOML-layout document. -/
def decode_toml (d : TomlDoc) : Option DecodedBundle :=
  match decodeList decodeDec d.hash_field,
        decodeList decodeTomlStr d.signature_limbs, d.bn with
  | some h, some s, .arr [.arr ms, .arr rs] =>
    match decodeList decodeTomlStr ms, decodeList decodeTomlStr rs with
    | some m, some r => some ⟨h, s, m, r⟩
    | _, _ => none
  | _, _, _ => none

theorem decodeList_dec_map (l : List Nat) :
    decodeList decodeDec (hashed_as_bytes l) = some l := by
  induction l with
  | nil => rfl
  | cons x xs ih =>
    simp only [hashed_as_bytes, List.map] at ih ⊢
    simp [decodeList, decodeDec_decToString, ih]

theorem decodeList_hex_map (l : List Nat) :
    decodeList decodeHexLimb (format_limbs_as_hex l) = some l := by
  induction l with
  | nil => rfl
  | cons x xs ih =>
    simp only [format_limbs_as_hex, List.map] at ih ⊢
    simp [decodeList, decodeHexLimb_hexToString, ih]

theorem decodeList_toml_map (l : List Nat) :
    decodeList decodeTomlStr (format_limbs_as_toml_value l) = some l := by
  induction l with
  | nil => rfl
  | cons x xs ih =>
    simp only [format_limbs_as_toml_value, List.map] at ih ⊢
    simp [decodeList, decodeTomlStr, decodeHexLimb_hexToString, ih]

/-- Claim C7: For the same output bundle (hash bytes, signature integer,
modulus limbs, reduction-parameter limbs), the plain rendering and the
structured (TOML) rendering encode numerically identical values: decoding
the hash byte list, the signature limb array, and the modulus and
reduction-parameter limb arrays from either format yields the same numbers
— the bundle's own numbers — and only surface syntax differs. -/
theorem format_equivalence (hashBytes : List Nat) (sig_uint : Nat)
    (modulus_limbs redc_param : List Nat) (hs : sig_uint < 2 ^ 1025) :
    ∃ td, render_toml hashBytes sig_uint modulus_limbs redc_param = .ok td ∧
      decode_plain (render_plain hashBytes sig_uint modulus_limbs redc_param) =
        some ⟨hashBytes, limbsAux (limbCount 1025) sig_uint, modulus_limbs, redc_param⟩ ∧
      decode_toml td =
        some ⟨hashBytes, limbsAux (limbCount 1025) sig_uint, modulus_limbs, redc_param⟩ := by
  refine ⟨{ hash_field := hashed_as_bytes hashBytes
            signature_limbs :=
              format_limbs_as_toml_value (limbsAux (limbCount 1025) sig_uint)
            bn := TomlValue.arr
              [TomlValue.arr (format_limbs_as_toml_value modulus_limbs),
               TomlValue.arr (format_limbs_as_toml_value redc_param)] }, ?_, ?_, ?_⟩
  · simp only [render_toml, split_into_120_bit_limbs, hs, if_true]
    rfl
  · simp [decode_plain, render_plain, bn_limbs, decodeList_dec_map, decodeList_hex_map]
  · simp [decode_toml, decodeList_dec_map, decodeList_toml_map]

/-- Witness for C7: the format equivalence at the concrete bundle with
hash bytes `[0, 255]`, signature integer `1`, modulus limbs `[2]` and
reduction-parameter limbs `[3]`. -/
theorem format_equivalence_witness :
    ∃ td, render_toml [0, 255] 1 [2] [3] = .ok td ∧
      decode_plain (render_plain [0, 255] 1 [2] [3]) =
        some ⟨[0, 255], limbsAux (limbCount 1025) 1, [2], [3]⟩ ∧
      decode_toml td = some ⟨[0, 255], limbsAux (limbCount 1025) 1, [2], [3]⟩ :=
  format_equivalence [0, 255] 1 [2] [3]
    (calc (1 : Nat) < 2 ^ 1 := by norm_num
      _ ≤ 2 ^ 1025 := Nat.pow_le_pow_right (by norm_num) (by norm_num))

/-! ### The signature pipeline (main.rs lines 36–99)

The external stages — RSA key generation (lines 47–51) and signing
(lines 53–60) — are embedded as inputs: the public modulus `n` and the raw
signature bytes.  The numeric stages that follow them are the code under
verification. -/

/-- Embedding of BigUint from_bytes_be (main.rs line 62): big-endian byte
interpretation. -/
def from_bytes_be (bytes : List Nat) : Nat :=
  bytes.foldl (fun acc b => 256 * acc + b) 0

/-- The numeric output bundle of one invocation: hash bytes, signature
limbs, modulus limbs, reduction-parameter limbs. -/
structure OutputBundle where
  hash : List Nat
  sig_limbs : List Nat
  modulus_limbs : List Nat
  redc_param : List Nat

/-- The numeric pipeline of `generate_2048_bit_signature_parameters`,
generalised over the declared bit width `w` passed to the limb splits
(used to state that the source instantiates every split at the key
generation width). -/
def generate_bundle_at (w : Nat) (msg : List Nat) (n : Nat)
    (sigBytes : List Nat) : Except PipelineError OutputBundle := do
  let hashed := sha256 msg
  let sig_uint := from_bytes_be sigBytes
  let modulus_limbs ← split_into_120_bit_limbs n w
  let redc ← compute_barrett_reduction_parameter n
  let redc_param ← split_into_120_bit_limbs redc w
  let sig_limbs ← split_into_120_bit_limbs sig_uint w
  pure ⟨hashed, sig_limbs, modulus_limbs, redc_param⟩

/-- The numeric pipeline of `generate_2048_bit_signature_parameters`
(main.rs lines 36–99) with the literal width `1025` written at every
split, as in the source: hash the message, decode the externally produced
signature bytes big-endian, split the modulus (line 66), compute and split
the Barrett parameter (lines 67–70), split the signature (lines 64/75). -/
def generate_2048_bit_signature_parameters (msg : List Nat) (n : Nat)
    (sigBytes : List Nat) : Except PipelineError OutputBundle := do
  let hashed := sha256 msg
  let sig_uint := from_bytes_be sigBytes
  let modulus_limbs ← split_into_120_bit_limbs n 1025
  let redc ← compute_barrett_reduction_parameter n
  let redc_param ← split_into_120_bit_limbs redc 1025
  let sig_limbs ← split_into_120_bit_limbs sig_uint 1025
  pure ⟨hashed, sig_limbs, modulus_limbs, redc_param⟩

/-- Claim C9: The signing stage generates its RSA keypair at bit length
`bits = 1025` (main.rs lines 48–50), and that same width is the one used
for every limb decomposition of the same invocation: the pipeline with its
literal `1025`s equals the width-generic pipeline instantiated at the key
generation width. -/
theorem keygen_width_matches_split_width :
    bits = 1025 ∧
      ∀ msg n sigBytes,
        generate_2048_bit_signature_parameters msg n sigBytes =
          generate_bundle_at bits msg n sigBytes :=
  ⟨rfl, fun _ _ _ => rfl⟩

set_option maxRecDepth 100000 in
/-- Counterexample to claim C10:  At the 1025-bit modulus `2^1024 + 1` the
Barrett reduction parameter `floor(2^2050 / (2^1024 + 1))` is at least
`2^1025`, so — contrary to the claim that all three split inputs are below
`2^1025` and the out-of-range branch is unreachable — its width-1025 split
takes the `OutOfRange` branch and the pipeline aborts at the splitting
stage (here with the empty message and empty signature bytes). -/
theorem redc_param_exceeds_width_counterexample :
    2 ^ 1025 ≤ 2 ^ 2050 / (2 ^ 1024 + 1) ∧
      compute_barrett_reduction_parameter (2 ^ 1024 + 1) =
        .ok (2 ^ 2050 / (2 ^ 1024 + 1)) ∧
      split_into_120_bit_limbs (2 ^ 2050 / (2 ^ 1024 + 1)) 1025 =
        .error .OutOfRange ∧
      generate_2048_bit_signature_parameters [] (2 ^ 1024 + 1) [] =
        .error .OutOfRange :=
  ⟨by decide, rfl, rfl, rfl⟩

/-- Claim C10 as amended:  For every modulus `n` of exactly 1025 bits and
every signature integer below `n`, the signature and modulus width-1025
splits succeed; but the Barrett reduction parameter lies in
`[2^1025, 2^1026]`, hence is never below `2^1025`, and its width-1025
split always fails with `OutOfRange`: the out-of-range branch is reachable
from the pipeline — it is taken at the reduction-parameter split. -/
theorem split_inputs_range (n sig_uint : Nat) (hn0 : 2 ^ 1024 ≤ n)
    (hn1 : n < 2 ^ 1025) (hsig : sig_uint < n) :
    (∃ sl, split_into_120_bit_limbs sig_uint 1025 = .ok sl) ∧
      (∃ ml, split_into_120_bit_limbs n 1025 = .ok ml) ∧
      ∃ q, compute_barrett_reduction_parameter n = .ok q ∧
        2 ^ 1025 ≤ q ∧ q ≤ 2 ^ 1026 ∧
        split_into_120_bit_limbs q 1025 = .error .OutOfRange := by
  have hpos : 0 < n := lt_of_lt_of_le (by positivity) hn0
  refine ⟨⟨limbsAux (limbCount 1025) sig_uint, ?_⟩,
          ⟨limbsAux (limbCount 1025) n, ?_⟩,
          2 ^ (2 * bits) / n, ?_, ?_, ?_, ?_⟩
  · simp [split_into_120_bit_limbs, lt_trans hsig hn1]
  · simp [split_into_120_bit_limbs, hn1]
  · simp [compute_barrett_reduction_parameter, Nat.pos_iff_ne_zero.mp hpos]
  · rw [Nat.le_div_iff_mul_le hpos]
    calc 2 ^ 1025 * n ≤ 2 ^ 1025 * 2 ^ 1025 :=
          Nat.mul_le_mul_left _ (le_of_lt hn1)
      _ = 2 ^ (2 * bits) := by rw [← pow_add]; norm_num [bits]
  · calc 2 ^ (2 * bits) / n ≤ 2 ^ (2 * bits) / 2 ^ 1024 :=
          Nat.div_le_div_left hn0 (by positivity)
      _ = 2 ^ 1026 := by
          rw [Nat.pow_div (by norm_num [bits]) (by norm_num)]
          norm_num [bits]
  · have hge : 2 ^ 1025 ≤ 2 ^ (2 * bits) / n := by
      rw [Nat.le_div_iff_mul_le hpos]
      calc 2 ^ 1025 * n ≤ 2 ^ 1025 * 2 ^ 1025 :=
            Nat.mul_le_mul_left _ (le_of_lt hn1)
        _ = 2 ^ (2 * bits) := by rw [← pow_add]; norm_num [bits]
    simp [split_into_120_bit_limbs, Nat.not_lt.mpr hge]

set_option maxRecDepth 100000 in
/-- Witness for the amended C10: at the 1025-bit modulus `2^1024 + 3` and
signature integer `5`, the signature and modulus splits succeed and the
reduction-parameter split fails. -/
theorem split_inputs_range_witness :
    (∃ sl, split_into_120_bit_limbs 5 1025 = .ok sl) ∧
      (∃ ml, split_into_120_bit_limbs (2 ^ 1024 + 3) 1025 = .ok ml) ∧
      ∃ q, compute_barrett_reduction_parameter (2 ^ 1024 + 3) = .ok q ∧
        2 ^ 1025 ≤ q ∧ q ≤ 2 ^ 1026 ∧
        split_into_120_bit_limbs q 1025 = .error .OutOfRange :=
  split_inputs_range (2 ^ 1024 + 3) 5 (Nat.le_add_right _ 3) (by decide) (by decide)

end SigGen
